import Mathlib

/-!
# Trade bridge (`bridge/main.go`): queue and hedge-state aggregator

A shallow embedding of the three HTTP handlers of the bridge server and of the
process-wide state they share, followed by the properties proved about them.

Modelling conventions.

* The buffered channel `tradeQueue = make(chan Trade, 100)` is the list of its
  buffered elements, oldest first.  A non-blocking send (`select` with `default`)
  appends when fewer than 100 elements are buffered; a non-blocking receive takes
  the head.
* `netNT` is a Go `int`: a 64-bit two's-complement integer, so `++` and `--` wrap
  (`wrapInt`).
* `hedgeLot` and the lot multiplier are `float64`: IEEE 754 binary64 values (`F64`)
  with round-to-nearest-even multiplication and integer conversion.
* Library calls are inputs of a handler: the outcome of decoding the request body
  (`Except String Trade`), the value returned by `os.Getenv("EA_LOT_MULTIPLIER")`
  and the function `strconv.ParseFloat(·, 64)` (`none` when it reports an error).
* Each handler is one atomic step `State → Response × State`; what it prints on
  standard output is appended to the `stdout` component of the state.
-/

namespace Bridge

/-! ## binary64 -/

/-- IEEE 754 binary64 value: not-a-number, a signed infinity, or the finite value
`(-1)^neg * m * 2^e`.  Values produced by `F64.round` have `m < 2^53`,
`-1074 ≤ e ≤ 971`, and `2^52 ≤ m` unless `e = -1074`. -/
inductive F64 where
  | nan : F64
  | inf (neg : Bool) : F64
  | fin (neg : Bool) (m : Nat) (e : Int) : F64
  deriving DecidableEq

namespace F64

/-- Binary length of `n`, computed with `fuel` halvings at most. -/
def bitsAux : Nat → Nat → Nat
  | 0, _ => 0
  | fuel + 1, n => if n = 0 then 0 else bitsAux fuel (n / 2) + 1

/-- Binary length of `n` (`0` for `0`). -/
def bits (n : Nat) : Nat := bitsAux n n

/-- Rounding of the non-negative rational `n / d` (`d > 0`) with sign `neg` to the
nearest binary64 value, ties to the even significand; magnitudes that round to
`2^1024` or more become an infinity, and a zero result keeps the sign. -/
def round (neg : Bool) (n d : Nat) : F64 :=
  if n = 0 then fin neg 0 (-1074)
  else
    let k : Int := (bits n : Int) - (bits d : Int)
    let e0 : Int := max (k - 53) (-1074)
    let N : Nat := if e0 < 0 then n * 2 ^ (-e0).toNat else n
    let D : Nat := if e0 < 0 then d else d * 2 ^ e0.toNat
    let e : Int := if N / D ≥ 2 ^ 53 then e0 + 1 else e0
    let D1 : Nat := if N / D ≥ 2 ^ 53 then 2 * D else D
    let q := N / D1
    let r := N % D1
    let m := if 2 * r > D1 ∨ (2 * r = D1 ∧ q % 2 = 1) then q + 1 else q
    let m1 := if m = 2 ^ 53 then 2 ^ 52 else m
    let e1 := if m = 2 ^ 53 then e + 1 else e
    if e1 > 971 then inf neg else fin neg m1 e1

/-- Conversion `float64(i)` of an integer. -/
def ofInt (i : Int) : F64 := round (decide (i < 0)) i.natAbs 1

/-- Product `a * b` of two binary64 values. -/
def mul : F64 → F64 → F64
  | nan, _ => nan
  | _, nan => nan
  | inf s, inf t => inf (xor s t)
  | inf s, fin t m _ => if m = 0 then nan else inf (xor s t)
  | fin s m _, inf t => if m = 0 then nan else inf (xor s t)
  | fin s m1 e1, fin t m2 e2 =>
    let e := e1 + e2
    if e < 0 then round (xor s t) (m1 * m2) (2 ^ (-e).toNat)
    else round (xor s t) (m1 * m2 * 2 ^ e.toNat) 1

/-- Comparison `a == b` of two binary64 values: not-a-number equals nothing, the
two zeros are equal, otherwise the values are compared as numbers. -/
def eq : F64 → F64 → Bool
  | nan, _ => false
  | _, nan => false
  | inf s, inf t => s == t
  | inf _, fin _ _ _ => false
  | fin _ _ _, inf _ => false
  | fin s m e, fin t n f =>
    (m == 0 && n == 0) ||
      (s == t && m * 2 ^ (e - min e f).toNat == n * 2 ^ (f - min e f).toNat)

/-- Comparison `a != b` of two binary64 values. -/
def ne (a b : F64) : Bool := !(eq a b)

/-- Test for not-a-number. -/
def isNaN : F64 → Bool
  | nan => true
  | _ => false

/-- Two binary64 values denote the same thing: both are not-a-number, or they are
equal as numbers (`==`). -/
def same (a b : F64) : Bool := (isNaN a && isNaN b) || eq a b

/-- Positive zero, the zero value of a `float64` variable. -/
def zero : F64 := fin false 0 (-1074)

/-- The binary64 value denoted by the decimal numeral `n / 10^k` (a Go constant or
a correctly rounded decimal conversion). -/
def ofDecimal (neg : Bool) (n k : Nat) : F64 := round neg n (10 ^ k)

end F64

/-! ## Data model -/

/-- Value of type `time.Time`, kept as the instant it denotes. -/
structure Time where
  unixNano : Int
  deriving DecidableEq

/-- The `Trade` record. -/
structure Trade where
  ID : String
  BaseID : String
  Time : Time
  Action : String
  Quantity : F64
  Price : F64
  TotalQuantity : Int
  ContractNum : Int
  deriving DecidableEq

/-- One line `Adjusting hedge from <previous> to <desired>` printed on standard
output. -/
structure Adjusting where
  previous : F64
  desired : F64
  deriving DecidableEq

/-- The package-level variables, and what has been printed so far. -/
structure State where
  tradeQueue : List Trade
  netNT : Int
  hedgeLot : F64
  stdout : List Adjusting
  deriving DecidableEq

/-- Capacity of the channel `tradeQueue`. -/
def queueCap : Nat := 100

/-- State at process start: empty channel, zero-valued variables. -/
def init : State :=
  { tradeQueue := [], netNT := 0, hedgeLot := F64.zero, stdout := [] }

/-- Wrap-around of a 64-bit signed integer operation. -/
def wrapInt (i : Int) : Int := (i + 2 ^ 63) % 2 ^ 64 - 2 ^ 63

/-- What a handler writes to the response. -/
inductive Body where
  | text (s : String) : Body
  | trade (t : Trade) : Body
  | health (status : String) (queue_size : Nat) : Body
  deriving DecidableEq

/-- Response of a handler: status code and body. -/
structure Response where
  status : Nat
  body : Body
  deriving DecidableEq

/-- The call `http.Error(w, msg, code)`: the message followed by a newline. -/
def httpError (msg : String) (code : Nat) : Response :=
  { status := code, body := Body.text (msg ++ "\n") }

/-- The response to an accepted trade. -/
def successResponse : Response :=
  { status := 200, body := Body.text "\x7b\"status\":\"success\"\x7d" }

/-- The response of the dequeue handler when the channel is empty. -/
def noTradeResponse : Response :=
  { status := 200, body := Body.text "\x7b\"status\":\"no_trade\"\x7d" }

/-! ## Handlers -/

/-- The function `getCurrentLotMultiplier` (`main.go`, lines 33-41): `mStr` is the
value of the environment variable (empty when unset), `parseFloat` is
`strconv.ParseFloat(·, 64)`, and the fallback is the constant `0.05`. -/
def getCurrentLotMultiplier (parseFloat : String → Option F64) (mStr : String) : F64 :=
  if mStr ≠ "" then
    match parseFloat mStr with
    | some m => m
    | none => F64.ofDecimal false 5 2
  else F64.ofDecimal false 5 2

/-- The handler `logTradeHandler` (`main.go`, lines 43-72); `decoded` is the outcome
of decoding the request body into a `Trade`. -/
def logTradeHandler (parseFloat : String → Option F64) (mStr : String)
    (decoded : Except String Trade) (s : State) : Response × State :=
  match decoded with
  | .error err => (httpError err 400, s)
  | .ok trade =>
    if s.tradeQueue.length < queueCap then
      let netNT :=
        if trade.Action = "Buy" then wrapInt (s.netNT + 1)
        else if trade.Action = "Sell" then wrapInt (s.netNT - 1)
        else s.netNT
      let lotMultiplier := getCurrentLotMultiplier parseFloat mStr
      let desiredHedgeLot := F64.mul (F64.ofInt netNT) lotMultiplier
      if F64.ne s.hedgeLot desiredHedgeLot then
        (successResponse,
          { tradeQueue := s.tradeQueue ++ [trade], netNT := netNT,
            hedgeLot := desiredHedgeLot,
            stdout := s.stdout ++ [{ previous := s.hedgeLot, desired := desiredHedgeLot }] })
      else
        (successResponse,
          { tradeQueue := s.tradeQueue ++ [trade], netNT := netNT,
            hedgeLot := s.hedgeLot, stdout := s.stdout })
    else (httpError "queue full" 503, s)

/-- The handler `getTradeHandler` (`main.go`, lines 74-81). -/
def getTradeHandler (s : State) : Response × State :=
  match s.tradeQueue with
  | trade :: rest => ({ status := 200, body := Body.trade trade }, { s with tradeQueue := rest })
  | [] => (noTradeResponse, s)

/-- The handler `healthHandler` (`main.go`, lines 83-92). -/
def healthHandler (s : State) : Response × State :=
  ({ status := 200, body := Body.health "healthy" s.tradeQueue.length }, s)

/-! ## Sequential runs -/

/-- A request to one of the three routes, with the inputs its handler reads. -/
inductive Request where
  | logTrade (mStr : String) (decoded : Except String Trade) : Request
  | getTrade : Request
  | health : Request

/-- Dispatch of a request to its handler. -/
def handle (parseFloat : String → Option F64) : Request → State → Response × State
  | .logTrade mStr decoded, s => logTradeHandler parseFloat mStr decoded s
  | .getTrade, s => getTradeHandler s
  | .health, s => healthHandler s

/-- Requests served one after the other: the request/response pairs in order and
the final state. -/
def run (parseFloat : String → Option F64) :
    List Request → State → List (Request × Response) × State
  | [], s => ([], s)
  | r :: rs, s =>
    let out := handle parseFloat r s
    let rest := run parseFloat rs out.2
    ((r, out.1) :: rest.1, rest.2)

/-- The trade of an accepted ingest, if the pair is one. -/
def acceptedTrade : Request × Response → Option Trade
  | (.logTrade _ (.ok t), resp) => if resp.status = 200 then some t else none
  | _ => none

/-- The trade returned by a dequeue, if the pair is one. -/
def returnedTrade : Request × Response → Option Trade
  | (.getTrade, resp) =>
    match resp.body with
    | .trade t => some t
    | _ => none
  | _ => none

/-- Accepted trades of a run, in acceptance order. -/
def accepted (tr : List (Request × Response)) : List Trade := tr.filterMap acceptedTrade

/-- Trades handed out by the dequeue handler during a run, in order. -/
def returned (tr : List (Request × Response)) : List Trade := tr.filterMap returnedTrade

/-- Number of trades of a list with the given action. -/
def countAction (a : String) (ts : List Trade) : Nat := (ts.filter (fun t => t.Action == a)).length

/-- Well-formed ingest request of trade `t` under environment value `mStr`. -/
def ingest (p : String × Trade) : Request := Request.logTrade p.1 (.ok p.2)

/-- A stand-in for `strconv.ParseFloat(·, 64)` used to instantiate the parser in
concrete runs.  It accepts plain decimal numerals (an optional sign, digits, an
optional fraction part, at least one digit) and converts them with correct rounding,
as the library does; it rejects every other string, among them strings without a
digit such as `abc`. -/
def parseDecimal (s : String) : Option F64 :=
  let cs := s.toList
  let neg := cs.head? = some '-'
  let body := if cs.head? = some '-' ∨ cs.head? = some '+' then cs.tail else cs
  let ip := body.takeWhile Char.isDigit
  let rest := body.dropWhile Char.isDigit
  let digitsVal := fun (ds : List Char) => ds.foldl (fun acc c => 10 * acc + (c.toNat - 48)) 0
  match rest with
  | [] => if ip = [] then none else some (F64.ofDecimal neg (digitsVal ip) 0)
  | c :: fp =>
    if c = '.' ∧ fp.all Char.isDigit ∧ (ip ≠ [] ∨ fp ≠ []) then
      some (F64.ofDecimal neg (digitsVal (ip ++ fp)) fp.length)
    else none

/-- A sample trade with the given action. -/
def sampleTrade (action : String) : Trade :=
  { ID := "T1", BaseID := "T1", Time := { unixNano := 0 }, Action := action,
    Quantity := F64.ofInt 1, Price := F64.ofInt 100, TotalQuantity := 1, ContractNum := 1 }

/-- Alternation of `n` accepted Buy ingests, each followed by a dequeue. -/
def buyThenTake : Nat → List Request
  | 0 => []
  | n + 1 => ingest ("", sampleTrade "Buy") :: Request.getTrade :: buyThenTake n

/-- The section of `logTradeHandler` headed `Update hedging state` (`main.go`, lines
55-67), run for the trade `trade` when `getCurrentLotMultiplier()` returns
`lotMultiplier`: it acts on `netNT`, `hedgeLot` and the standard output and does not
touch the channel. -/
def updateHedge (lotMultiplier : F64) (trade : Trade) (s : State) : State :=
  let netNT :=
    if trade.Action = "Buy" then wrapInt (s.netNT + 1)
    else if trade.Action = "Sell" then wrapInt (s.netNT - 1)
    else s.netNT
  let desiredHedgeLot := F64.mul (F64.ofInt netNT) lotMultiplier
  if F64.ne s.hedgeLot desiredHedgeLot then
    { tradeQueue := s.tradeQueue, netNT := netNT, hedgeLot := desiredHedgeLot,
      stdout := s.stdout ++ [{ previous := s.hedgeLot, desired := desiredHedgeLot }] }
  else
    { tradeQueue := s.tradeQueue, netNT := netNT, hedgeLot := s.hedgeLot,
      stdout := s.stdout }

/-- The update of the hedging state run for each trade of a list in turn, with the
same lot multiplier. -/
def updateHedgeAll (lotMultiplier : F64) (trades : List Trade) (s : State) : State :=
  trades.foldl (fun st t => updateHedge lotMultiplier t st) s

/-! ## Basic facts about the handlers -/

theorem logTradeHandler_accept (parseFloat : String → Option F64) (mStr : String) (t : Trade)
    (s : State) (h : s.tradeQueue.length < 100) :
    (logTradeHandler parseFloat mStr (.ok t) s).1 = successResponse ∧
    (logTradeHandler parseFloat mStr (.ok t) s).2.tradeQueue = s.tradeQueue ++ [t] ∧
    (logTradeHandler parseFloat mStr (.ok t) s).2.netNT =
      (if t.Action = "Buy" then wrapInt (s.netNT + 1)
       else if t.Action = "Sell" then wrapInt (s.netNT - 1) else s.netNT) := by
  unfold logTradeHandler
  simp only [queueCap, h, if_true]
  split_ifs <;> simp_all

theorem logTradeHandler_reject (parseFloat : String → Option F64) (mStr : String) (t : Trade)
    (s : State) (h : ¬ s.tradeQueue.length < 100) :
    logTradeHandler parseFloat mStr (.ok t) s = (httpError "queue full" 503, s) := by
  unfold logTradeHandler
  simp only [queueCap, h, if_false]

theorem successResponse_ne_queueFull : successResponse ≠ httpError "queue full" 503 := by
  decide

theorem run_ingests (parseFloat : String → Option F64) (ins : List (String × Trade)) :
    ∀ s : State, s.tradeQueue.length + ins.length ≤ 100 →
      (∀ x ∈ (run parseFloat (ins.map ingest) s).1, x.2 = successResponse) ∧
      (run parseFloat (ins.map ingest) s).2.tradeQueue.length
        = s.tradeQueue.length + ins.length := by
  induction ins with
  | nil => intro s _; simp [run]
  | cons p ps ih =>
    intro s hs
    simp only [List.length_cons] at hs
    have hlt : s.tradeQueue.length < 100 := by omega
    obtain ⟨h1, h2, _⟩ := logTradeHandler_accept parseFloat p.1 p.2 s hlt
    have hq : (logTradeHandler parseFloat p.1 (.ok p.2) s).2.tradeQueue.length
        = s.tradeQueue.length + 1 := by rw [h2]; simp
    have ih1 := ih (logTradeHandler parseFloat p.1 (.ok p.2) s).2 (by rw [hq]; omega)
    simp only [List.map_cons, run, ingest, handle, List.mem_cons, List.length_cons]
    refine ⟨?_, ?_⟩
    · intro x hx
      rcases hx with rfl | hx
      · exact h1
      · exact ih1.1 x hx
    · have := ih1.2
      simp only [ingest] at this
      rw [this, hq]; omega

theorem run_fifo (parseFloat : String → Option F64) (reqs : List Request) :
    ∀ s : State,
      returned (run parseFloat reqs s).1 ++ (run parseFloat reqs s).2.tradeQueue
        = s.tradeQueue ++ accepted (run parseFloat reqs s).1 := by
  induction reqs with
  | nil => intro s; simp [run, returned, accepted]
  | cons r rs ih =>
    intro s
    have ih1 := ih (handle parseFloat r s).2
    simp only [run, returned, accepted] at ih1 ⊢
    cases r with
    | logTrade mStr decoded =>
      cases decoded with
      | error err =>
        simp only [handle, logTradeHandler] at ih1 ⊢
        simpa [returnedTrade, acceptedTrade] using ih1
      | ok t =>
        by_cases hlt : s.tradeQueue.length < 100
        · obtain ⟨h1, h2, _⟩ := logTradeHandler_accept parseFloat mStr t s hlt
          simp only [handle] at ih1 ⊢
          rw [h2] at ih1
          rw [List.filterMap_cons, List.filterMap_cons]
          simp only [returnedTrade, acceptedTrade, h1, successResponse]
          simpa using ih1
        · have hr := logTradeHandler_reject parseFloat mStr t s hlt
          simp only [handle] at ih1 ⊢
          rw [hr] at ih1 ⊢
          rw [List.filterMap_cons, List.filterMap_cons]
          simp only [returnedTrade, acceptedTrade, httpError]
          simpa using ih1
    | getTrade =>
      simp only [handle, getTradeHandler] at ih1 ⊢
      cases hq : s.tradeQueue with
      | nil =>
        simp only [hq] at ih1 ⊢
        rw [List.filterMap_cons, List.filterMap_cons]
        simp only [returnedTrade, acceptedTrade, noTradeResponse]
        simpa [hq] using ih1
      | cons t rest =>
        simp only [hq] at ih1 ⊢
        rw [List.filterMap_cons, List.filterMap_cons]
        simp only [returnedTrade, acceptedTrade]
        simpa using ih1
    | health =>
      simp only [handle, healthHandler] at ih1 ⊢
      rw [List.filterMap_cons, List.filterMap_cons]
      simp only [returnedTrade, acceptedTrade]
      simpa using ih1

theorem wrapInt_wrapInt_add (k d : Int) : wrapInt (wrapInt k + d) = wrapInt (k + d) := by
  unfold wrapInt
  omega

theorem wrapInt_of_range (k : Int) (h1 : -2 ^ 63 ≤ k) (h2 : k < 2 ^ 63) : wrapInt k = k := by
  unfold wrapInt
  omega

theorem countAction_cons (a : String) (t : Trade) (ts : List Trade) :
    countAction a (t :: ts) = (if t.Action = a then 1 else 0) + countAction a ts := by
  unfold countAction
  by_cases h : t.Action = a
  · simp [List.filter_cons, h]; omega
  · simp [List.filter_cons, h]

theorem countAction_le_length (a : String) (ts : List Trade) :
    countAction a ts ≤ ts.length := by
  unfold countAction
  exact List.length_filter_le _ _

theorem run_netNT (parseFloat : String → Option F64) (reqs : List Request) :
    ∀ (s : State) (k : Int), s.netNT = wrapInt k →
      (run parseFloat reqs s).2.netNT =
        wrapInt (k + (countAction "Buy" (accepted (run parseFloat reqs s).1) : Int)
          - (countAction "Sell" (accepted (run parseFloat reqs s).1) : Int)) := by
  induction reqs with
  | nil => intro s k hk; simp [run, accepted, countAction, hk]
  | cons r rs ih =>
    intro s k hk
    simp only [run, accepted] at ih ⊢
    cases r with
    | logTrade mStr decoded =>
      cases decoded with
      | error err =>
        have ih1 := ih s k hk
        simp only [handle, logTradeHandler]
        rw [List.filterMap_cons]
        simpa [acceptedTrade] using ih1
      | ok t =>
        by_cases hlt : s.tradeQueue.length < 100
        · obtain ⟨h1, _, h3⟩ := logTradeHandler_accept parseFloat mStr t s hlt
          simp only [handle]
          rw [List.filterMap_cons]
          simp only [acceptedTrade, h1, successResponse, if_true, countAction_cons]
          by_cases hb : t.Action = "Buy"
          · have hns : t.Action ≠ "Sell" := by rw [hb]; decide
            have hn : (logTradeHandler parseFloat mStr (.ok t) s).2.netNT = wrapInt (k + 1) := by
              rw [h3, if_pos hb, hk, wrapInt_wrapInt_add]
            rw [ih _ (k + 1) hn]
            simp only [hb, hns, if_true, if_false]
            congr 1; push_cast; ring
          · by_cases hs : t.Action = "Sell"
            · have hn : (logTradeHandler parseFloat mStr (.ok t) s).2.netNT
                  = wrapInt (k - 1) := by
                rw [h3, if_neg hb, if_pos hs, hk, sub_eq_add_neg, wrapInt_wrapInt_add,
                  ← sub_eq_add_neg]
              rw [ih _ (k - 1) hn]
              simp only [hb, hs, if_true, if_false]
              congr 1; push_cast; ring
            · have hn : (logTradeHandler parseFloat mStr (.ok t) s).2.netNT = wrapInt k := by
                rw [h3, if_neg hb, if_neg hs, hk]
              rw [ih _ k hn]
              simp only [hb, hs, if_false]
              congr 1; push_cast; ring
        · have hr := logTradeHandler_reject parseFloat mStr t s hlt
          have ih1 := ih s k hk
          simp only [handle]
          rw [hr, List.filterMap_cons]
          simpa [acceptedTrade, httpError] using ih1
    | getTrade =>
      simp only [handle, getTradeHandler]
      rw [List.filterMap_cons]
      cases hq : s.tradeQueue with
      | nil =>
        have ih1 := ih s k hk
        simpa [acceptedTrade, hq] using ih1
      | cons t rest =>
        have ih1 := ih { s with tradeQueue := rest } k hk
        simpa [acceptedTrade] using ih1
    | health =>
      have ih1 := ih s k hk
      simp only [handle, healthHandler]
      rw [List.filterMap_cons]
      simpa [acceptedTrade] using ih1

theorem run_buyThenTake (parseFloat : String → Option F64) (n : Nat) :
    ∀ s : State, s.tradeQueue = [] →
      accepted (run parseFloat (buyThenTake n) s).1 = List.replicate n (sampleTrade "Buy") := by
  induction n with
  | zero => intro s _; simp [buyThenTake, run, accepted]
  | succ n ih =>
    intro s hs
    have hlt : s.tradeQueue.length < 100 := by rw [hs]; decide
    obtain ⟨h1, h2, _⟩ := logTradeHandler_accept parseFloat "" (sampleTrade "Buy") s hlt
    have hq : (getTradeHandler
        (logTradeHandler parseFloat "" (.ok (sampleTrade "Buy")) s).2).2.tradeQueue = [] := by
      simp [getTradeHandler, h2, hs]
    have ih1 := ih _ hq
    simp only [accepted] at ih1 ⊢
    simp only [buyThenTake, run, ingest, handle]
    rw [List.filterMap_cons, List.filterMap_cons]
    simp only [acceptedTrade, h1, successResponse, if_true, ih1, List.replicate_succ]

theorem countAction_replicate_buy (n : Nat) :
    countAction "Buy" (List.replicate n (sampleTrade "Buy")) = n ∧
    countAction "Sell" (List.replicate n (sampleTrade "Buy")) = 0 := by
  induction n with
  | zero => simp [countAction]
  | succ n ih =>
    rw [List.replicate_succ, countAction_cons, countAction_cons, ih.1, ih.2]
    have h1 : (sampleTrade "Buy").Action = "Buy" := rfl
    have h2 : (sampleTrade "Buy").Action ≠ "Sell" := by decide
    simp [h1, h2]; omega

theorem logTradeHandler_accept_hedge (parseFloat : String → Option F64) (mStr : String)
    (t : Trade) (s : State) (h : s.tradeQueue.length < 100) :
    (logTradeHandler parseFloat mStr (.ok t) s).2.hedgeLot =
      (if F64.ne s.hedgeLot
          (F64.mul (F64.ofInt (logTradeHandler parseFloat mStr (.ok t) s).2.netNT)
            (getCurrentLotMultiplier parseFloat mStr)) = true
        then F64.mul (F64.ofInt (logTradeHandler parseFloat mStr (.ok t) s).2.netNT)
            (getCurrentLotMultiplier parseFloat mStr)
        else s.hedgeLot) := by
  unfold logTradeHandler
  simp only [queueCap, h, if_true]
  split_ifs <;> simp_all

theorem same_of_ne_false (a b : F64) (h : F64.ne a b = false) : F64.same a b = true := by
  unfold F64.ne at h
  unfold F64.same
  simp at h
  simp [h]

theorem same_self_of_nan_or_eq (d : F64) : F64.same d d = true := by
  unfold F64.same
  cases d with
  | nan => simp [F64.isNaN]
  | inf s => simp [F64.isNaN, F64.eq]
  | fin s m e => simp [F64.isNaN, F64.eq]

theorem eq_of_same_not_nan (a b : F64) (h : F64.same a b = true) (hb : F64.isNaN b = false) :
    F64.eq a b = true := by
  unfold F64.same at h
  simpa [hb] using h

theorem hedge_same (parseFloat : String → Option F64) (mStr : String)
    (t : Trade) (s : State) (h : s.tradeQueue.length < 100) :
    F64.same (logTradeHandler parseFloat mStr (.ok t) s).2.hedgeLot
      (F64.mul (F64.ofInt (logTradeHandler parseFloat mStr (.ok t) s).2.netNT)
        (getCurrentLotMultiplier parseFloat mStr)) = true := by
  rw [logTradeHandler_accept_hedge parseFloat mStr t s h]
  split_ifs with hne
  · exact same_self_of_nan_or_eq _
  · exact same_of_ne_false _ _ (by simpa using hne)

set_option maxRecDepth 100000 in
set_option exponentiation.threshold 4000 in
theorem hedge_steps :
    wrapInt (0 + 1) = 1 ∧ wrapInt (1 + 1) = 2 ∧ wrapInt (2 - 1) = 1 ∧ wrapInt (2 + 1) = 3 ∧
    F64.mul (F64.ofInt 1) (F64.ofDecimal false 5 2) = F64.ofDecimal false 5 2 ∧
    F64.mul (F64.ofInt 2) (F64.ofDecimal false 5 2) = F64.ofDecimal false 1 1 ∧
    F64.ne F64.zero (F64.ofDecimal false 5 2) = true ∧
    F64.ne (F64.ofDecimal false 5 2) (F64.ofDecimal false 1 1) = true ∧
    F64.ne (F64.ofDecimal false 1 1) (F64.ofDecimal false 5 2) = true := by
  decide

theorem three_trades (parseFloat : String → Option F64) (m1 m2 m3 : String)
    (t1 t2 t3 : Trade) :
    (run parseFloat [ingest (m1, t1), ingest (m2, t2), ingest (m3, t3)] init).2 =
      (logTradeHandler parseFloat m3 (.ok t3)
        (logTradeHandler parseFloat m2 (.ok t2)
          (logTradeHandler parseFloat m1 (.ok t1) init).2).2).2 ∧
    init.tradeQueue.length < 100 ∧
    (logTradeHandler parseFloat m1 (.ok t1) init).2.tradeQueue.length < 100 ∧
    (logTradeHandler parseFloat m2 (.ok t2)
      (logTradeHandler parseFloat m1 (.ok t1) init).2).2.tradeQueue.length < 100 := by
  have h0 : init.tradeQueue.length < 100 := by decide
  have q1 := (logTradeHandler_accept parseFloat m1 t1 init h0).2.1
  have h1 : (logTradeHandler parseFloat m1 (.ok t1) init).2.tradeQueue.length < 100 := by
    rw [q1]; simp [init]
  have q2 := (logTradeHandler_accept parseFloat m2 t2 _ h1).2.1
  have h2 : (logTradeHandler parseFloat m2 (.ok t2)
      (logTradeHandler parseFloat m1 (.ok t1) init).2).2.tradeQueue.length < 100 := by
    rw [q2, q1]; simp [init]
  exact ⟨by simp [run, ingest, handle], h0, h1, h2⟩

theorem buy_buy_sell_net (parseFloat : String → Option F64) (m1 m2 m3 : String)
    (t1 t2 t3 : Trade) (a1 : t1.Action = "Buy") (a2 : t2.Action = "Buy")
    (a3 : t3.Action = "Sell") :
    (logTradeHandler parseFloat m1 (.ok t1) init).2.netNT = 1 ∧
    (logTradeHandler parseFloat m2 (.ok t2)
      (logTradeHandler parseFloat m1 (.ok t1) init).2).2.netNT = 2 ∧
    (logTradeHandler parseFloat m3 (.ok t3)
      (logTradeHandler parseFloat m2 (.ok t2)
        (logTradeHandler parseFloat m1 (.ok t1) init).2).2).2.netNT = 1 := by
  obtain ⟨_, h0, h1, h2⟩ := three_trades parseFloat m1 m2 m3 t1 t2 t3
  have hns : t3.Action ≠ "Buy" := by rw [a3]; decide
  have n1 := (logTradeHandler_accept parseFloat m1 t1 init h0).2.2
  have n2 := (logTradeHandler_accept parseFloat m2 t2 _ h1).2.2
  have n3 := (logTradeHandler_accept parseFloat m3 t3 _ h2).2.2
  rw [if_pos a1] at n1
  rw [if_pos a2] at n2
  rw [if_neg hns, if_pos a3] at n3
  have e1 : (logTradeHandler parseFloat m1 (.ok t1) init).2.netNT = 1 := by
    rw [n1]; exact hedge_steps.1
  have e2 : (logTradeHandler parseFloat m2 (.ok t2)
      (logTradeHandler parseFloat m1 (.ok t1) init).2).2.netNT = 2 := by
    rw [n2, e1]; exact hedge_steps.2.1
  refine ⟨e1, e2, ?_⟩
  rw [n3, e2]; exact hedge_steps.2.2.1

theorem buy_buy_sell_hedge (parseFloat : String → Option F64) (m1 m2 m3 : String)
    (t1 t2 t3 : Trade) (a1 : t1.Action = "Buy") (a2 : t2.Action = "Buy")
    (a3 : t3.Action = "Sell")
    (c1 : getCurrentLotMultiplier parseFloat m1 = F64.ofDecimal false 5 2)
    (c2 : getCurrentLotMultiplier parseFloat m2 = F64.ofDecimal false 5 2)
    (c3 : getCurrentLotMultiplier parseFloat m3 = F64.ofDecimal false 5 2) :
    (logTradeHandler parseFloat m3 (.ok t3)
      (logTradeHandler parseFloat m2 (.ok t2)
        (logTradeHandler parseFloat m1 (.ok t1) init).2).2).2.hedgeLot
      = F64.ofDecimal false 5 2 := by
  obtain ⟨_, h0, h1, h2⟩ := three_trades parseFloat m1 m2 m3 t1 t2 t3
  obtain ⟨e1, e2, e3⟩ := buy_buy_sell_net parseFloat m1 m2 m3 t1 t2 t3 a1 a2 a3
  obtain ⟨_, _, _, _, f1, f2, g0, g1, g2⟩ := hedge_steps
  have k1 := logTradeHandler_accept_hedge parseFloat m1 t1 init h0
  rw [e1, c1, f1] at k1
  have k1' : (logTradeHandler parseFloat m1 (.ok t1) init).2.hedgeLot
      = F64.ofDecimal false 5 2 := by
    rw [k1]
    have : init.hedgeLot = F64.zero := rfl
    rw [this, g0]; rfl
  have k2 := logTradeHandler_accept_hedge parseFloat m2 t2 _ h1
  rw [e2, c2, f2, k1', g1] at k2
  have k3 := logTradeHandler_accept_hedge parseFloat m3 t3 _ h2
  rw [e3, c3, f1, k2] at k3
  simp only [if_true] at k3
  rw [g2] at k3
  simpa using k3

theorem eq_nan_right (a : F64) : F64.eq a F64.nan = false := by
  cases a <;> rfl

theorem getCurrentLotMultiplier_cases (parseFloat : String → Option F64) :
    (∀ (mStr : String) (m : F64), mStr ≠ "" → parseFloat mStr = some m →
      getCurrentLotMultiplier parseFloat mStr = m) ∧
    getCurrentLotMultiplier parseFloat "" = F64.ofDecimal false 5 2 ∧
    (∀ mStr : String, parseFloat mStr = none →
      getCurrentLotMultiplier parseFloat mStr = F64.ofDecimal false 5 2) := by
  refine ⟨?_, ?_, ?_⟩
  · intro mStr m hne hp
    simp [getCurrentLotMultiplier, hne, hp]
  · simp [getCurrentLotMultiplier]
  · intro mStr hp
    unfold getCurrentLotMultiplier
    split_ifs <;> simp [hp]

set_option maxRecDepth 100000 in
set_option exponentiation.threshold 4000 in
theorem three_times :
    F64.mul (F64.ofInt 3) (F64.ofDecimal false 1 1) = F64.fin false 5404319552844596 (-54) ∧
    F64.mul (F64.ofInt 3) (F64.ofDecimal false 5 2) = F64.fin false 5404319552844596 (-55) ∧
    F64.ofDecimal false 3 1 = F64.fin false 5404319552844595 (-54) ∧
    F64.ofDecimal false 15 2 = F64.fin false 5404319552844595 (-55) := by
  decide

/-! ## Capacity and order of the queue -/

/-- C1: a well-formed trade is accepted exactly when fewer than 100 trades are queued.
An accepted ingest answers success and makes the queue one longer; an ingest at size
100 answers `503 queue full` and leaves the size at 100.  From any state with an empty
queue, each of `k ≤ 100` consecutive ingests answers success, the size after the first
`i` of them is `i`, and when `k = 100` one more ingest is refused with the size still
100. -/
theorem C1_ingest_accepts_iff_below_capacity (parseFloat : String → Option F64)
    (s0 : State) (ins : List (String × Trade)) (h0 : s0.tradeQueue = [])
    (hk : ins.length ≤ 100) :
    (∀ (s : State) (mStr : String) (t : Trade),
      ((logTradeHandler parseFloat mStr (.ok t) s).1 = successResponse
          ↔ s.tradeQueue.length < 100) ∧
      (s.tradeQueue.length < 100 →
        (logTradeHandler parseFloat mStr (.ok t) s).2.tradeQueue.length
          = s.tradeQueue.length + 1) ∧
      (s.tradeQueue.length = 100 →
        (logTradeHandler parseFloat mStr (.ok t) s).1 = httpError "queue full" 503 ∧
        (logTradeHandler parseFloat mStr (.ok t) s).2.tradeQueue.length = 100)) ∧
    (∀ x ∈ (run parseFloat (ins.map ingest) s0).1, x.2 = successResponse) ∧
    (∀ i, i ≤ ins.length →
      (run parseFloat ((ins.take i).map ingest) s0).2.tradeQueue.length = i) ∧
    (ins.length = 100 → ∀ (mStr : String) (t : Trade),
      (logTradeHandler parseFloat mStr (.ok t)
          (run parseFloat (ins.map ingest) s0).2).1 = httpError "queue full" 503 ∧
      (logTradeHandler parseFloat mStr (.ok t)
          (run parseFloat (ins.map ingest) s0).2).2.tradeQueue.length = 100) := by
  have hlen0 : s0.tradeQueue.length = 0 := by rw [h0]; rfl
  have hrun := run_ingests parseFloat ins s0 (by omega)
  refine ⟨?_, hrun.1, ?_, ?_⟩
  · intro s mStr t
    refine ⟨⟨?_, ?_⟩, ?_, ?_⟩
    · intro hresp
      by_contra hge
      rw [logTradeHandler_reject parseFloat mStr t s hge] at hresp
      exact successResponse_ne_queueFull hresp.symm
    · intro hlt
      exact (logTradeHandler_accept parseFloat mStr t s hlt).1
    · intro hlt
      rw [(logTradeHandler_accept parseFloat mStr t s hlt).2.1]
      simp
    · intro h100
      rw [logTradeHandler_reject parseFloat mStr t s (by omega)]
      exact ⟨rfl, h100⟩
  · intro i hi
    have := (run_ingests parseFloat (ins.take i) s0
      (by rw [List.length_take]; omega)).2
    rw [this, List.length_take]
    omega
  · intro h100 mStr t
    have hq : (run parseFloat (ins.map ingest) s0).2.tradeQueue.length = 100 := by
      rw [hrun.2]; omega
    rw [logTradeHandler_reject parseFloat mStr t _ (by omega)]
    exact ⟨rfl, hq⟩

/-- Witness of C1: one hundred Buy trades ingested from the initial state. -/
theorem C1_ingest_accepts_iff_below_capacity_witness :
    init.tradeQueue = [] ∧
    (List.replicate 100 ("", sampleTrade "Buy")).length ≤ 100 ∧
    (run parseDecimal ((List.replicate 100 ("", sampleTrade "Buy")).map ingest)
        init).2.tradeQueue.length = 100 ∧
    (logTradeHandler parseDecimal "" (.ok (sampleTrade "Sell"))
        (run parseDecimal ((List.replicate 100 ("", sampleTrade "Buy")).map ingest)
          init).2).1 = httpError "queue full" 503 :=
  ⟨rfl, by simp,
    by
      have h := (C1_ingest_accepts_iff_below_capacity parseDecimal init
        (List.replicate 100 ("", sampleTrade "Buy")) rfl (by simp)).2.2.1 100 (by simp)
      simpa using h,
    ((C1_ingest_accepts_iff_below_capacity parseDecimal init
        (List.replicate 100 ("", sampleTrade "Buy")) rfl (by simp)).2.2.2 (by simp)
        "" (sampleTrade "Sell")).1⟩

/-- C2: in a sequential run from the initial state, the trades handed out by the
dequeue handler, in the order handed out, followed by the trades still queued from
head to tail, are exactly the accepted trades in acceptance order. -/
theorem C2_fifo_no_loss_no_duplication (parseFloat : String → Option F64)
    (reqs : List Request) :
    returned (run parseFloat reqs init).1 ++ (run parseFloat reqs init).2.tradeQueue
      = accepted (run parseFloat reqs init).1 := by
  have h := run_fifo parseFloat reqs init
  simpa [init] using h

/-- C3: on an empty queue the dequeue handler answers `no_trade` and the queue stays
empty; on a non-empty queue it answers with the head trade and the queue loses exactly
that element. -/
theorem C3_dequeue_empty_and_nonempty (s : State) :
    (s.tradeQueue = [] →
      (getTradeHandler s).1 = noTradeResponse ∧
      (∀ t, (getTradeHandler s).1.body ≠ Body.trade t) ∧
      (getTradeHandler s).2.tradeQueue.length = 0) ∧
    (∀ (t : Trade) (rest : List Trade), s.tradeQueue = t :: rest →
      (getTradeHandler s).1 = { status := 200, body := Body.trade t } ∧
      (getTradeHandler s).2.tradeQueue = rest ∧
      (getTradeHandler s).2.tradeQueue.length + 1 = s.tradeQueue.length) := by
  refine ⟨?_, ?_⟩
  · intro h
    simp [getTradeHandler, h, noTradeResponse]
  · intro t rest h
    simp [getTradeHandler, h]

/-- Witness of C3: the initial state, and a state with two queued trades. -/
theorem C3_dequeue_empty_and_nonempty_witness :
    (init.tradeQueue = [] ∧ (getTradeHandler init).1 = noTradeResponse) ∧
    ((getTradeHandler { init with
        tradeQueue := [sampleTrade "Buy", sampleTrade "Sell"] }).1
      = { status := 200, body := Body.trade (sampleTrade "Buy") }) :=
  ⟨⟨rfl, ((C3_dequeue_empty_and_nonempty init).1 rfl).1⟩,
    ((C3_dequeue_empty_and_nonempty
      { init with tradeQueue := [sampleTrade "Buy", sampleTrade "Sell"] }).2
      (sampleTrade "Buy") [sampleTrade "Sell"] rfl).1⟩

/-! ## Net position and target hedge size -/

/-- C4 (as amended): after any sequential run from the initial state the net position
is the number of accepted Buy trades minus the number of accepted Sell trades, reduced
to the 64-bit two's-complement range; it is exactly that difference whenever the
difference lies in that range, in particular whenever fewer than `2^63` trades were
accepted.  Refused and malformed ingests, dequeues and health probes are not counted.
Three accepted trades with actions Buy, Buy, Sell from the initial state end with net
position 1. -/
theorem C4_net_position_counts_accepted (parseFloat : String → Option F64)
    (reqs : List Request) :
    (run parseFloat reqs init).2.netNT =
      wrapInt ((countAction "Buy" (accepted (run parseFloat reqs init).1) : Int)
        - (countAction "Sell" (accepted (run parseFloat reqs init).1) : Int)) ∧
    (-2 ^ 63 ≤ (countAction "Buy" (accepted (run parseFloat reqs init).1) : Int)
        - (countAction "Sell" (accepted (run parseFloat reqs init).1) : Int) →
      (countAction "Buy" (accepted (run parseFloat reqs init).1) : Int)
        - (countAction "Sell" (accepted (run parseFloat reqs init).1) : Int) < 2 ^ 63 →
      (run parseFloat reqs init).2.netNT =
        (countAction "Buy" (accepted (run parseFloat reqs init).1) : Int)
          - (countAction "Sell" (accepted (run parseFloat reqs init).1) : Int)) ∧
    ((accepted (run parseFloat reqs init).1).length < 2 ^ 63 →
      (run parseFloat reqs init).2.netNT =
        (countAction "Buy" (accepted (run parseFloat reqs init).1) : Int)
          - (countAction "Sell" (accepted (run parseFloat reqs init).1) : Int)) ∧
    (∀ (m1 m2 m3 : String) (t1 t2 t3 : Trade),
      t1.Action = "Buy" → t2.Action = "Buy" → t3.Action = "Sell" →
      (run parseFloat [ingest (m1, t1), ingest (m2, t2), ingest (m3, t3)] init).2.netNT
        = 1) := by
  have h := run_netNT parseFloat reqs init 0 (by decide)
  rw [zero_add] at h
  refine ⟨h, ?_, ?_, ?_⟩
  · intro h1 h2
    rw [h, wrapInt_of_range _ h1 h2]
  · intro hlen
    have hb := countAction_le_length "Buy" (accepted (run parseFloat reqs init).1)
    have hs := countAction_le_length "Sell" (accepted (run parseFloat reqs init).1)
    rw [h, wrapInt_of_range _ (by omega) (by omega)]
  · intro m1 m2 m3 t1 t2 t3 a1 a2 a3
    rw [(three_trades parseFloat m1 m2 m3 t1 t2 t3).1]
    exact (buy_buy_sell_net parseFloat m1 m2 m3 t1 t2 t3 a1 a2 a3).2.2

set_option maxRecDepth 100000 in
set_option exponentiation.threshold 4000 in
/-- Witness of C4: the requests Buy, dequeue, Buy, malformed, Sell, health. -/
theorem C4_net_position_counts_accepted_witness :
    (accepted (run parseDecimal
        [ingest ("", sampleTrade "Buy"), Request.getTrade, ingest ("", sampleTrade "Buy"),
          Request.logTrade "" (.error "EOF"), ingest ("", sampleTrade "Sell"),
          Request.health] init).1).length < 2 ^ 63 ∧
    (run parseDecimal
        [ingest ("", sampleTrade "Buy"), Request.getTrade, ingest ("", sampleTrade "Buy"),
          Request.logTrade "" (.error "EOF"), ingest ("", sampleTrade "Sell"),
          Request.health] init).2.netNT = 1 :=
  ⟨by decide,
    ((C4_net_position_counts_accepted parseDecimal
        [ingest ("", sampleTrade "Buy"), Request.getTrade, ingest ("", sampleTrade "Buy"),
          Request.logTrade "" (.error "EOF"), ingest ("", sampleTrade "Sell"),
          Request.health]).2.2.1 (by decide)).trans (by decide)⟩

/-- Counterexample to C4 as stated: after `2^63` accepted Buy trades, each dequeued
before the next arrives, the net position is `-2^63` while the number of accepted Buy
trades minus the number of accepted Sell trades is `2^63`. -/
theorem C4_counterexample_wraps_after_2_pow_63_buys :
    (run parseDecimal (buyThenTake (2 ^ 63)) init).2.netNT = -2 ^ 63 ∧
    (countAction "Buy" (accepted (run parseDecimal (buyThenTake (2 ^ 63)) init).1) : Int)
      - (countAction "Sell" (accepted (run parseDecimal (buyThenTake (2 ^ 63)) init).1) : Int)
      = 2 ^ 63 ∧
    (run parseDecimal (buyThenTake (2 ^ 63)) init).2.netNT ≠
      (countAction "Buy" (accepted (run parseDecimal (buyThenTake (2 ^ 63)) init).1) : Int)
        - (countAction "Sell" (accepted (run parseDecimal (buyThenTake (2 ^ 63)) init).1) : Int) := by
  have h := run_netNT parseDecimal (buyThenTake (2 ^ 63)) init 0 (by decide)
  rw [h, run_buyThenTake parseDecimal (2 ^ 63) init rfl,
    (countAction_replicate_buy (2 ^ 63)).1, (countAction_replicate_buy (2 ^ 63)).2]
  unfold wrapInt
  norm_num


/-- C5: immediately after an accepted ingest the stored target hedge size equals
the updated net position, converted to `float64`, times the lot multiplier resolved in
that call: the two are equal under `==`, or both are not-a-number (the stored value
is then the product itself).  With the multiplier resolving to 0.05 in each call,
three accepted trades with actions Buy, Buy, Sell from the initial state leave the
target hedge size at 0.05. -/
theorem C5_target_is_net_times_multiplier (parseFloat : String → Option F64)
    (mStr : String) (t : Trade) (s : State) (hlt : s.tradeQueue.length < 100) :
    F64.same (logTradeHandler parseFloat mStr (.ok t) s).2.hedgeLot
      (F64.mul (F64.ofInt (logTradeHandler parseFloat mStr (.ok t) s).2.netNT)
        (getCurrentLotMultiplier parseFloat mStr)) = true ∧
    (F64.isNaN (F64.mul (F64.ofInt (logTradeHandler parseFloat mStr (.ok t) s).2.netNT)
        (getCurrentLotMultiplier parseFloat mStr)) = false →
      F64.eq (logTradeHandler parseFloat mStr (.ok t) s).2.hedgeLot
        (F64.mul (F64.ofInt (logTradeHandler parseFloat mStr (.ok t) s).2.netNT)
          (getCurrentLotMultiplier parseFloat mStr)) = true) ∧
    (F64.isNaN (F64.mul (F64.ofInt (logTradeHandler parseFloat mStr (.ok t) s).2.netNT)
        (getCurrentLotMultiplier parseFloat mStr)) = true →
      (logTradeHandler parseFloat mStr (.ok t) s).2.hedgeLot =
        F64.mul (F64.ofInt (logTradeHandler parseFloat mStr (.ok t) s).2.netNT)
          (getCurrentLotMultiplier parseFloat mStr)) ∧
    (∀ (m1 m2 m3 : String) (t1 t2 t3 : Trade),
      t1.Action = "Buy" → t2.Action = "Buy" → t3.Action = "Sell" →
      getCurrentLotMultiplier parseFloat m1 = F64.ofDecimal false 5 2 →
      getCurrentLotMultiplier parseFloat m2 = F64.ofDecimal false 5 2 →
      getCurrentLotMultiplier parseFloat m3 = F64.ofDecimal false 5 2 →
      (run parseFloat [ingest (m1, t1), ingest (m2, t2), ingest (m3, t3)] init).2.hedgeLot
        = F64.ofDecimal false 5 2) := by
  have hsame := hedge_same parseFloat mStr t s hlt
  refine ⟨hsame, ?_, ?_, ?_⟩
  · intro hn
    exact eq_of_same_not_nan _ _ hsame hn
  · intro hn
    rw [logTradeHandler_accept_hedge parseFloat mStr t s hlt]
    generalize F64.mul (F64.ofInt (logTradeHandler parseFloat mStr (.ok t) s).2.netNT)
      (getCurrentLotMultiplier parseFloat mStr) = d at hn ⊢
    cases d with
    | nan => simp [F64.ne, eq_nan_right]
    | inf b => simp [F64.isNaN] at hn
    | fin b m e => simp [F64.isNaN] at hn
  · intro m1 m2 m3 t1 t2 t3 a1 a2 a3 c1 c2 c3
    rw [(three_trades parseFloat m1 m2 m3 t1 t2 t3).1]
    exact buy_buy_sell_hedge parseFloat m1 m2 m3 t1 t2 t3 a1 a2 a3 c1 c2 c3

/-- Witness of C5: a Buy trade ingested in the initial state with the variable
unset, and the run Buy, Buy, Sell with the variable unset. -/
theorem C5_target_is_net_times_multiplier_witness :
    init.tradeQueue.length < 100 ∧
    F64.same (logTradeHandler parseDecimal "" (.ok (sampleTrade "Buy")) init).2.hedgeLot
      (F64.mul
        (F64.ofInt (logTradeHandler parseDecimal "" (.ok (sampleTrade "Buy")) init).2.netNT)
        (getCurrentLotMultiplier parseDecimal "")) = true ∧
    (run parseDecimal [ingest ("", sampleTrade "Buy"), ingest ("", sampleTrade "Buy"),
      ingest ("", sampleTrade "Sell")] init).2.hedgeLot = F64.ofDecimal false 5 2 :=
  ⟨by decide,
    (C5_target_is_net_times_multiplier parseDecimal "" (sampleTrade "Buy") init
      (by decide)).1,
    (C5_target_is_net_times_multiplier parseDecimal "" (sampleTrade "Buy") init
      (by decide)).2.2.2 "" "" "" (sampleTrade "Buy") (sampleTrade "Buy")
      (sampleTrade "Sell") rfl rfl rfl (getCurrentLotMultiplier_cases parseDecimal).2.1
      (getCurrentLotMultiplier_cases parseDecimal).2.1
      (getCurrentLotMultiplier_cases parseDecimal).2.1⟩

/-- C6 (as amended): the resolver returns the parsed value when the variable is
non-empty and parses, and the default 0.05 when the variable is unset or empty or
does not parse.  Consequently an accepted trade that leaves the net position at 3
with the variable set to `0.1` stores the binary64 product of 3 and 0.1, which is
`5404319552844596 * 2^-54` (0.30000000000000004), and with the variable set to `abc`
the product of 3 and 0.05, which is `5404319552844596 * 2^-55`
(0.15000000000000002). -/
theorem C6_resolver_and_float_targets (parseFloat : String → Option F64) :
    (∀ (mStr : String) (m : F64), mStr ≠ "" → parseFloat mStr = some m →
      getCurrentLotMultiplier parseFloat mStr = m) ∧
    getCurrentLotMultiplier parseFloat "" = F64.ofDecimal false 5 2 ∧
    (∀ mStr : String, parseFloat mStr = none →
      getCurrentLotMultiplier parseFloat mStr = F64.ofDecimal false 5 2) ∧
    (∀ (t : Trade) (s : State), s.tradeQueue.length < 100 →
      parseFloat "0.1" = some (F64.ofDecimal false 1 1) →
      (logTradeHandler parseFloat "0.1" (.ok t) s).2.netNT = 3 →
      F64.eq (logTradeHandler parseFloat "0.1" (.ok t) s).2.hedgeLot
        (F64.fin false 5404319552844596 (-54)) = true) ∧
    (∀ (t : Trade) (s : State), s.tradeQueue.length < 100 →
      parseFloat "abc" = none →
      (logTradeHandler parseFloat "abc" (.ok t) s).2.netNT = 3 →
      F64.eq (logTradeHandler parseFloat "abc" (.ok t) s).2.hedgeLot
        (F64.fin false 5404319552844596 (-55)) = true) := by
  obtain ⟨r1, r2, r3⟩ := getCurrentLotMultiplier_cases parseFloat
  refine ⟨r1, r2, r3, ?_, ?_⟩
  · intro t s hlt hp hn
    have hsame := hedge_same parseFloat "0.1" t s hlt
    rw [hn, r1 "0.1" _ (by decide) hp, three_times.1] at hsame
    exact eq_of_same_not_nan _ _ hsame rfl
  · intro t s hlt hp hn
    have hsame := hedge_same parseFloat "abc" t s hlt
    rw [hn, r3 "abc" hp, three_times.2.1] at hsame
    exact eq_of_same_not_nan _ _ hsame rfl

set_option maxRecDepth 100000 in
set_option exponentiation.threshold 4000 in
/-- Witness of C6: the third Buy trade under the values `0.1` and `abc`. -/
theorem C6_resolver_and_float_targets_witness :
    (parseDecimal "0.1" = some (F64.ofDecimal false 1 1) ∧
      F64.eq (logTradeHandler parseDecimal "0.1" (.ok (sampleTrade "Buy"))
          { init with netNT := 2 }).2.hedgeLot
        (F64.fin false 5404319552844596 (-54)) = true) ∧
    (parseDecimal "abc" = none ∧
      F64.eq (logTradeHandler parseDecimal "abc" (.ok (sampleTrade "Buy"))
          { init with netNT := 2 }).2.hedgeLot
        (F64.fin false 5404319552844596 (-55)) = true) :=
  ⟨⟨by decide,
      (C6_resolver_and_float_targets parseDecimal).2.2.2.1 (sampleTrade "Buy")
        { init with netNT := 2 } (by decide) (by decide) (by decide)⟩,
    ⟨by decide,
      (C6_resolver_and_float_targets parseDecimal).2.2.2.2 (sampleTrade "Buy")
        { init with netNT := 2 } (by decide) (by decide) (by decide)⟩⟩

set_option maxRecDepth 100000 in
set_option exponentiation.threshold 4000 in
/-- Counterexample to C6 as stated: three accepted Buy trades from the initial state
leave the net position at 3; with the variable set to `0.1` the stored target is not
equal (`==`) to the `float64` value 0.3, and with the variable set to `abc` it is not
equal to the `float64` value 0.15. -/
theorem C6_counterexample_three_times_a_tenth :
    (parseDecimal "0.1" = some (F64.ofDecimal false 1 1) ∧
      (run parseDecimal [ingest ("0.1", sampleTrade "Buy"), ingest ("0.1", sampleTrade "Buy"),
        ingest ("0.1", sampleTrade "Buy")] init).2.netNT = 3 ∧
      F64.eq (run parseDecimal [ingest ("0.1", sampleTrade "Buy"),
          ingest ("0.1", sampleTrade "Buy"), ingest ("0.1", sampleTrade "Buy")] init).2.hedgeLot
        (F64.ofDecimal false 3 1) = false) ∧
    (parseDecimal "abc" = none ∧
      (run parseDecimal [ingest ("abc", sampleTrade "Buy"), ingest ("abc", sampleTrade "Buy"),
        ingest ("abc", sampleTrade "Buy")] init).2.netNT = 3 ∧
      F64.eq (run parseDecimal [ingest ("abc", sampleTrade "Buy"),
          ingest ("abc", sampleTrade "Buy"), ingest ("abc", sampleTrade "Buy")] init).2.hedgeLot
        (F64.ofDecimal false 15 2) = false) := by
  decide

/-! ## Error paths and frame conditions -/

/-- C7: when the request body does not decode, the ingest handler answers status 400
with the decode error as text, and queue, net position, target hedge size and output
are exactly as before. -/
theorem C7_malformed_body_rejected_state_unchanged (parseFloat : String → Option F64)
    (mStr err : String) (s : State) :
    (logTradeHandler parseFloat mStr (.error err) s).1.status = 400 ∧
    (logTradeHandler parseFloat mStr (.error err) s).1 = httpError err 400 ∧
    (logTradeHandler parseFloat mStr (.error err) s).2 = s ∧
    (logTradeHandler parseFloat mStr (.error err) s).2.tradeQueue = s.tradeQueue ∧
    (logTradeHandler parseFloat mStr (.error err) s).2.tradeQueue.length
      = s.tradeQueue.length ∧
    (logTradeHandler parseFloat mStr (.error err) s).2.netNT = s.netNT ∧
    (logTradeHandler parseFloat mStr (.error err) s).2.hedgeLot = s.hedgeLot := by
  simp [logTradeHandler, httpError]

/-- C8: with 100 trades queued, a well-formed trade of any action is refused with
`503 queue full` and the whole state is unchanged.  In any state, if the ingest
changed the net position or the target hedge size then the trade was enqueued and
the answer was success. -/
theorem C8_rejected_ingest_leaves_state (parseFloat : String → Option F64)
    (mStr : String) (t : Trade) (s : State) (hfull : s.tradeQueue.length = 100) :
    (logTradeHandler parseFloat mStr (.ok t) s).1 = httpError "queue full" 503 ∧
    (logTradeHandler parseFloat mStr (.ok t) s).2 = s ∧
    (logTradeHandler parseFloat mStr (.ok t) s).2.tradeQueue = s.tradeQueue ∧
    (logTradeHandler parseFloat mStr (.ok t) s).2.netNT = s.netNT ∧
    (logTradeHandler parseFloat mStr (.ok t) s).2.hedgeLot = s.hedgeLot ∧
    (∀ (s1 : State) (t1 : Trade),
      ((logTradeHandler parseFloat mStr (.ok t1) s1).2.netNT ≠ s1.netNT ∨
        (logTradeHandler parseFloat mStr (.ok t1) s1).2.hedgeLot ≠ s1.hedgeLot) →
      (logTradeHandler parseFloat mStr (.ok t1) s1).1 = successResponse ∧
      (logTradeHandler parseFloat mStr (.ok t1) s1).2.tradeQueue
        = s1.tradeQueue ++ [t1]) := by
  have hr := logTradeHandler_reject parseFloat mStr t s (by omega)
  refine ⟨by rw [hr], by rw [hr], by rw [hr], by rw [hr], by rw [hr], ?_⟩
  intro s1 t1 hchg
  by_cases hlt : s1.tradeQueue.length < 100
  · exact ⟨(logTradeHandler_accept parseFloat mStr t1 s1 hlt).1,
      (logTradeHandler_accept parseFloat mStr t1 s1 hlt).2.1⟩
  · rw [logTradeHandler_reject parseFloat mStr t1 s1 hlt] at hchg
    simp at hchg

/-- Witness of C8: a Buy trade sent to a queue holding 100 trades. -/
theorem C8_rejected_ingest_leaves_state_witness :
    ({ init with tradeQueue := List.replicate 100 (sampleTrade "Sell") } :
        State).tradeQueue.length = 100 ∧
    (logTradeHandler parseDecimal "0.1" (.ok (sampleTrade "Buy"))
        { init with tradeQueue := List.replicate 100 (sampleTrade "Sell") }).2
      = { init with tradeQueue := List.replicate 100 (sampleTrade "Sell") } :=
  ⟨by simp,
    (C8_rejected_ingest_leaves_state parseDecimal "0.1" (sampleTrade "Buy")
      { init with tradeQueue := List.replicate 100 (sampleTrade "Sell") } (by simp)).2.1⟩

/-- C9: with fewer than 100 trades queued, a well-formed trade whose action is
neither `Buy` nor `Sell` is accepted and appended to the queue, and the net position
is unchanged. -/
theorem C9_other_action_accepted_net_unchanged (parseFloat : String → Option F64)
    (mStr : String) (t : Trade) (s : State) (hlt : s.tradeQueue.length < 100)
    (hb : t.Action ≠ "Buy") (hs : t.Action ≠ "Sell") :
    (logTradeHandler parseFloat mStr (.ok t) s).1 = successResponse ∧
    (logTradeHandler parseFloat mStr (.ok t) s).2.tradeQueue = s.tradeQueue ++ [t] ∧
    (logTradeHandler parseFloat mStr (.ok t) s).2.netNT = s.netNT := by
  obtain ⟨h1, h2, h3⟩ := logTradeHandler_accept parseFloat mStr t s hlt
  refine ⟨h1, h2, ?_⟩
  rw [h3, if_neg hb, if_neg hs]

/-- Witness of C9: the actions `buy`, `BUY`, `Hold` and the empty action, from the
initial state. -/
theorem C9_other_action_accepted_net_unchanged_witness :
    (init.tradeQueue.length < 100 ∧ (sampleTrade "buy").Action ≠ "Buy" ∧
      (sampleTrade "buy").Action ≠ "Sell") ∧
    (logTradeHandler parseDecimal "" (.ok (sampleTrade "buy")) init).2.netNT = 0 ∧
    (logTradeHandler parseDecimal "" (.ok (sampleTrade "BUY")) init).2.netNT = 0 ∧
    (logTradeHandler parseDecimal "" (.ok (sampleTrade "Hold")) init).2.netNT = 0 ∧
    (logTradeHandler parseDecimal "" (.ok (sampleTrade "")) init).2.netNT = 0 :=
  ⟨⟨by decide, by decide, by decide⟩,
    (C9_other_action_accepted_net_unchanged parseDecimal "" (sampleTrade "buy") init
      (by decide) (by decide) (by decide)).2.2,
    (C9_other_action_accepted_net_unchanged parseDecimal "" (sampleTrade "BUY") init
      (by decide) (by decide) (by decide)).2.2,
    (C9_other_action_accepted_net_unchanged parseDecimal "" (sampleTrade "Hold") init
      (by decide) (by decide) (by decide)).2.2,
    (C9_other_action_accepted_net_unchanged parseDecimal "" (sampleTrade "") init
      (by decide) (by decide) (by decide)).2.2⟩

/-- C10: the health handler answers status `healthy` with the current number of
queued trades and leaves queue, net position, target hedge size and output as they
were. -/
theorem C10_health_reports_size_changes_nothing (s : State) :
    (healthHandler s).1 = { status := 200, body := Body.health "healthy" s.tradeQueue.length } ∧
    (healthHandler s).2 = s ∧
    (healthHandler s).2.tradeQueue = s.tradeQueue ∧
    (healthHandler s).2.netNT = s.netNT ∧
    (healthHandler s).2.hedgeLot = s.hedgeLot := by
  simp [healthHandler]

/-! ## Invariant of the queue and dependence on the trade -/

theorem logTradeHandler_eq_updateHedge (parseFloat : String → Option F64) (mStr : String)
    (t : Trade) (s : State) (h : s.tradeQueue.length < 100) :
    logTradeHandler parseFloat mStr (.ok t) s =
      (successResponse,
        { updateHedge (getCurrentLotMultiplier parseFloat mStr) t s with
          tradeQueue := s.tradeQueue ++ [t] }) := by
  unfold logTradeHandler updateHedge
  simp only [queueCap, h, if_true]
  split_ifs <;> rfl

theorem handle_length_le (parseFloat : String → Option F64) (r : Request) (s : State)
    (h : s.tradeQueue.length ≤ 100) : (handle parseFloat r s).2.tradeQueue.length ≤ 100 := by
  cases r with
  | logTrade mStr decoded =>
    cases decoded with
    | error err => simpa [handle, logTradeHandler] using h
    | ok t =>
      by_cases hlt : s.tradeQueue.length < 100
      · simp only [handle]
        rw [(logTradeHandler_accept parseFloat mStr t s hlt).2.1]
        simp only [List.length_append, List.length_singleton]
        omega
      · simp only [handle]
        rw [logTradeHandler_reject parseFloat mStr t s hlt]
        exact h
  | getTrade =>
    simp only [handle, getTradeHandler]
    cases hq : s.tradeQueue with
    | nil => simp [hq]
    | cons t rest =>
      rw [hq] at h
      simp only [List.length_cons] at h ⊢
      omega
  | health => simpa [handle, healthHandler] using h

theorem run_length_le (parseFloat : String → Option F64) (reqs : List Request) :
    ∀ s : State, s.tradeQueue.length ≤ 100 →
      (run parseFloat reqs s).2.tradeQueue.length ≤ 100 := by
  induction reqs with
  | nil => intro s h; simpa [run] using h
  | cons r rs ih =>
    intro s h
    simp only [run]
    exact ih _ (handle_length_le parseFloat r s h)

/-- C12: in every state reached from the initial state by a finite sequence of
ingest, dequeue and health requests, the number of queued trades is between 0 and 100
inclusive. -/
theorem C12_queue_occupancy_within_capacity (parseFloat : String → Option F64)
    (reqs : List Request) :
    0 ≤ (run parseFloat reqs init).2.tradeQueue.length ∧
    (run parseFloat reqs init).2.tradeQueue.length ≤ 100 :=
  ⟨Nat.zero_le _, run_length_le parseFloat reqs init (by decide)⟩

/-- C13: the dequeue handler leaves the net position and the target hedge size as they
were, whether it returns a trade or `no_trade`; in particular a queued Buy trade that
is handed out does not lower the net position.  A request that changes the net
position or the target hedge size is an ingest of a well-formed trade that was
answered with success. -/
theorem C13_dequeue_leaves_hedge_state (s : State) :
    (getTradeHandler s).2.netNT = s.netNT ∧
    (getTradeHandler s).2.hedgeLot = s.hedgeLot ∧
    (∀ (t : Trade) (rest : List Trade), t.Action = "Buy" → s.tradeQueue = t :: rest →
      (getTradeHandler s).1.body = Body.trade t ∧ (getTradeHandler s).2.netNT = s.netNT) ∧
    (∀ (parseFloat : String → Option F64) (r : Request),
      ((handle parseFloat r s).2.netNT ≠ s.netNT ∨
        (handle parseFloat r s).2.hedgeLot ≠ s.hedgeLot) →
      ∃ (mStr : String) (t : Trade), r = Request.logTrade mStr (.ok t) ∧
        (handle parseFloat r s).1 = successResponse) := by
  have hn : (getTradeHandler s).2.netNT = s.netNT := by
    unfold getTradeHandler; split <;> rfl
  have hh : (getTradeHandler s).2.hedgeLot = s.hedgeLot := by
    unfold getTradeHandler; split <;> rfl
  refine ⟨hn, hh, ?_, ?_⟩
  · intro t rest _ hq
    refine ⟨?_, hn⟩
    simp [getTradeHandler, hq]
  · intro parseFloat r hchg
    cases r with
    | logTrade mStr decoded =>
      cases decoded with
      | error err => simp [handle, logTradeHandler] at hchg
      | ok t =>
        refine ⟨mStr, t, rfl, ?_⟩
        by_cases hlt : s.tradeQueue.length < 100
        · exact (logTradeHandler_accept parseFloat mStr t s hlt).1
        · simp only [handle] at hchg
          rw [logTradeHandler_reject parseFloat mStr t s hlt] at hchg
          simp at hchg
    | getTrade =>
      simp only [handle] at hchg
      rw [hn, hh] at hchg
      simp at hchg
    | health => simp [handle, healthHandler] at hchg

set_option maxRecDepth 100000 in
set_option exponentiation.threshold 4000 in
/-- Witness of C13: a Buy trade is accepted in the initial state and then handed out;
the net position stays 1. -/
theorem C13_dequeue_leaves_hedge_state_witness :
    (sampleTrade "Buy").Action = "Buy" ∧
    (logTradeHandler parseDecimal "" (.ok (sampleTrade "Buy")) init).2.tradeQueue
      = [sampleTrade "Buy"] ∧
    (logTradeHandler parseDecimal "" (.ok (sampleTrade "Buy")) init).2.netNT = 1 ∧
    (getTradeHandler
      (logTradeHandler parseDecimal "" (.ok (sampleTrade "Buy")) init).2).2.netNT
      = (logTradeHandler parseDecimal "" (.ok (sampleTrade "Buy")) init).2.netNT :=
  ⟨rfl, by decide, by decide,
    ((C13_dequeue_leaves_hedge_state
      (logTradeHandler parseDecimal "" (.ok (sampleTrade "Buy")) init).2).2.2.1
      (sampleTrade "Buy") [] rfl (by decide)).2⟩

/-- C14: from any state, ingesting one well-formed trade or another gives the same
response and the same resulting queue size, whatever the fields of the trades; with
fewer than 100 trades queued every well-formed trade, among them one with an empty
`ID` or with `ContractNum` outside `1..TotalQuantity`, is answered with success and
appended to the queue unchanged. -/
theorem C14_acceptance_independent_of_trade (parseFloat : String → Option F64)
    (m1 m2 : String) (t1 t2 : Trade) (s : State) :
    (logTradeHandler parseFloat m1 (.ok t1) s).1 = (logTradeHandler parseFloat m2 (.ok t2) s).1 ∧
    (logTradeHandler parseFloat m1 (.ok t1) s).2.tradeQueue.length
      = (logTradeHandler parseFloat m2 (.ok t2) s).2.tradeQueue.length ∧
    (∀ (mStr : String) (t : Trade), s.tradeQueue.length < 100 →
      (logTradeHandler parseFloat mStr (.ok t) s).1 = successResponse ∧
      (logTradeHandler parseFloat mStr (.ok t) s).2.tradeQueue = s.tradeQueue ++ [t]) := by
  refine ⟨?_, ?_, ?_⟩
  · by_cases hlt : s.tradeQueue.length < 100
    · rw [(logTradeHandler_accept parseFloat m1 t1 s hlt).1,
        (logTradeHandler_accept parseFloat m2 t2 s hlt).1]
    · rw [logTradeHandler_reject parseFloat m1 t1 s hlt,
        logTradeHandler_reject parseFloat m2 t2 s hlt]
  · by_cases hlt : s.tradeQueue.length < 100
    · rw [(logTradeHandler_accept parseFloat m1 t1 s hlt).2.1,
        (logTradeHandler_accept parseFloat m2 t2 s hlt).2.1]
      simp
    · rw [logTradeHandler_reject parseFloat m1 t1 s hlt,
        logTradeHandler_reject parseFloat m2 t2 s hlt]
  · intro mStr t hlt
    exact ⟨(logTradeHandler_accept parseFloat mStr t s hlt).1,
      (logTradeHandler_accept parseFloat mStr t s hlt).2.1⟩

/-- Witness of C14: a trade with an empty `ID` and with `ContractNum` 7 of
`TotalQuantity` 2 is accepted in the initial state and stored as it is. -/
theorem C14_acceptance_independent_of_trade_witness :
    init.tradeQueue.length < 100 ∧
    ({ sampleTrade "Buy" with ID := "", TotalQuantity := 2, ContractNum := 7 } : Trade).ID
      = "" ∧
    (logTradeHandler parseDecimal ""
        (.ok { sampleTrade "Buy" with ID := "", TotalQuantity := 2, ContractNum := 7 })
        init).1 = successResponse ∧
    (logTradeHandler parseDecimal ""
        (.ok { sampleTrade "Buy" with ID := "", TotalQuantity := 2, ContractNum := 7 })
        init).2.tradeQueue
      = init.tradeQueue ++
        [{ sampleTrade "Buy" with ID := "", TotalQuantity := 2, ContractNum := 7 }] :=
  ⟨by decide, rfl,
    (C14_acceptance_independent_of_trade parseDecimal "" "" (sampleTrade "Buy")
      (sampleTrade "Sell") init).2.2 ""
      { sampleTrade "Buy" with ID := "", TotalQuantity := 2, ContractNum := 7 } (by decide)⟩

/-! ## Adjustment events -/

theorem updateHedge_cases (m : F64) (t : Trade) (s : State) :
    (updateHedge m t s).netNT =
      (if t.Action = "Buy" then wrapInt (s.netNT + 1)
       else if t.Action = "Sell" then wrapInt (s.netNT - 1) else s.netNT) ∧
    (F64.ne s.hedgeLot (F64.mul (F64.ofInt (updateHedge m t s).netNT) m) = true →
      (updateHedge m t s).hedgeLot = F64.mul (F64.ofInt (updateHedge m t s).netNT) m ∧
      (updateHedge m t s).stdout = s.stdout ++
        [{ previous := s.hedgeLot,
           desired := F64.mul (F64.ofInt (updateHedge m t s).netNT) m }]) ∧
    (F64.ne s.hedgeLot (F64.mul (F64.ofInt (updateHedge m t s).netNT) m) = false →
      (updateHedge m t s).hedgeLot = s.hedgeLot ∧
      (updateHedge m t s).stdout = s.stdout) := by
  have hn : (updateHedge m t s).netNT =
      (if t.Action = "Buy" then wrapInt (s.netNT + 1)
       else if t.Action = "Sell" then wrapInt (s.netNT - 1) else s.netNT) := by
    unfold updateHedge
    dsimp only
    split_ifs <;> rfl
  refine ⟨hn, ?_, ?_⟩
  · intro h
    rw [hn] at h ⊢
    unfold updateHedge
    simp only [h, if_true, and_self]
  · intro h
    rw [hn] at h
    unfold updateHedge
    simp [h]

theorem logTradeHandler_accept_fields (parseFloat : String → Option F64) (mStr : String)
    (t : Trade) (s : State) (h : s.tradeQueue.length < 100) :
    (logTradeHandler parseFloat mStr (.ok t) s).2.netNT
      = (updateHedge (getCurrentLotMultiplier parseFloat mStr) t s).netNT ∧
    (logTradeHandler parseFloat mStr (.ok t) s).2.hedgeLot
      = (updateHedge (getCurrentLotMultiplier parseFloat mStr) t s).hedgeLot ∧
    (logTradeHandler parseFloat mStr (.ok t) s).2.stdout
      = (updateHedge (getCurrentLotMultiplier parseFloat mStr) t s).stdout := by
  rw [logTradeHandler_eq_updateHedge parseFloat mStr t s h]
  exact ⟨rfl, rfl, rfl⟩

/-- C16: on an accepted ingest a line `Adjusting hedge from <previous> to <new>` is
printed exactly when the recomputed target differs (`!=`) from the stored target; the
line carries the stored target and the recomputed one, which becomes the stored
target.  When the recomputed target equals (`==`) the stored one nothing is printed
and the stored target is unchanged; this is the case for a trade with an unrecognized
action that follows an accepted ingest under the same multiplier, whenever the target
is a number. -/
theorem C16_adjustment_event_iff_target_differs (parseFloat : String → Option F64)
    (mStr : String) (t : Trade) (s : State) (hlt : s.tradeQueue.length < 100) :
    (F64.ne s.hedgeLot
        (F64.mul (F64.ofInt (logTradeHandler parseFloat mStr (.ok t) s).2.netNT)
          (getCurrentLotMultiplier parseFloat mStr)) = true →
      (logTradeHandler parseFloat mStr (.ok t) s).2.stdout = s.stdout ++
        [{ previous := s.hedgeLot,
           desired := F64.mul (F64.ofInt (logTradeHandler parseFloat mStr (.ok t) s).2.netNT)
             (getCurrentLotMultiplier parseFloat mStr) }] ∧
      (logTradeHandler parseFloat mStr (.ok t) s).2.hedgeLot =
        F64.mul (F64.ofInt (logTradeHandler parseFloat mStr (.ok t) s).2.netNT)
          (getCurrentLotMultiplier parseFloat mStr)) ∧
    (F64.eq s.hedgeLot
        (F64.mul (F64.ofInt (logTradeHandler parseFloat mStr (.ok t) s).2.netNT)
          (getCurrentLotMultiplier parseFloat mStr)) = true →
      (logTradeHandler parseFloat mStr (.ok t) s).2.stdout = s.stdout ∧
      (logTradeHandler parseFloat mStr (.ok t) s).2.hedgeLot = s.hedgeLot) ∧
    ((logTradeHandler parseFloat mStr (.ok t) s).2.stdout ≠ s.stdout ↔
      F64.ne s.hedgeLot
        (F64.mul (F64.ofInt (logTradeHandler parseFloat mStr (.ok t) s).2.netNT)
          (getCurrentLotMultiplier parseFloat mStr)) = true) ∧
    (∀ (mStr2 : String) (t2 : Trade),
      (logTradeHandler parseFloat mStr (.ok t) s).2.tradeQueue.length < 100 →
      getCurrentLotMultiplier parseFloat mStr2 = getCurrentLotMultiplier parseFloat mStr →
      t2.Action ≠ "Buy" → t2.Action ≠ "Sell" →
      F64.isNaN (F64.mul (F64.ofInt (logTradeHandler parseFloat mStr (.ok t) s).2.netNT)
        (getCurrentLotMultiplier parseFloat mStr)) = false →
      (logTradeHandler parseFloat mStr2 (.ok t2)
          (logTradeHandler parseFloat mStr (.ok t) s).2).2.stdout
        = (logTradeHandler parseFloat mStr (.ok t) s).2.stdout ∧
      (logTradeHandler parseFloat mStr2 (.ok t2)
          (logTradeHandler parseFloat mStr (.ok t) s).2).2.hedgeLot
        = (logTradeHandler parseFloat mStr (.ok t) s).2.hedgeLot) := by
  obtain ⟨fn, fh, fs⟩ := logTradeHandler_accept_fields parseFloat mStr t s hlt
  obtain ⟨_, c1, c2⟩ := updateHedge_cases (getCurrentLotMultiplier parseFloat mStr) t s
  rw [← fn, ← fh, ← fs] at c1 c2
  have hno : F64.eq s.hedgeLot
        (F64.mul (F64.ofInt (logTradeHandler parseFloat mStr (.ok t) s).2.netNT)
          (getCurrentLotMultiplier parseFloat mStr)) = true →
      (logTradeHandler parseFloat mStr (.ok t) s).2.stdout = s.stdout ∧
      (logTradeHandler parseFloat mStr (.ok t) s).2.hedgeLot = s.hedgeLot := by
    intro he
    have := c2 (by simp [F64.ne, he])
    exact ⟨this.2, this.1⟩
  refine ⟨fun h => ⟨(c1 h).2, (c1 h).1⟩, hno, ?_, ?_⟩
  · constructor
    · intro hne
      by_contra hn
      have hf : F64.ne s.hedgeLot
          (F64.mul (F64.ofInt (logTradeHandler parseFloat mStr (.ok t) s).2.netNT)
            (getCurrentLotMultiplier parseFloat mStr)) = false := by
        simpa using hn
      exact hne (c2 hf).2
    · intro h hst
      rw [(c1 h).2] at hst
      simp at hst
  · intro mStr2 t2 hlt2 hm hb hs hnan
    have heq := eq_of_same_not_nan _ _ (hedge_same parseFloat mStr t s hlt) hnan
    obtain ⟨gn, gh, gs⟩ := logTradeHandler_accept_fields parseFloat mStr2 t2 _ hlt2
    obtain ⟨dn, _, d2⟩ := updateHedge_cases (getCurrentLotMultiplier parseFloat mStr2) t2
      (logTradeHandler parseFloat mStr (.ok t) s).2
    rw [if_neg hb, if_neg hs] at dn
    rw [dn, hm] at d2
    have := d2 (by simp [F64.ne, heq])
    rw [gs, gh, hm]
    exact ⟨this.2, this.1⟩

set_option maxRecDepth 100000 in
set_option exponentiation.threshold 4000 in
/-- Witness of C16: the first Buy trade in the initial state prints the adjustment
from 0 to 0.05, and a following trade with action `Hold` prints nothing. -/
theorem C16_adjustment_event_iff_target_differs_witness :
    init.tradeQueue.length < 100 ∧
    F64.ne init.hedgeLot
      (F64.mul (F64.ofInt (logTradeHandler parseDecimal "" (.ok (sampleTrade "Buy")) init).2.netNT)
        (getCurrentLotMultiplier parseDecimal "")) = true ∧
    (logTradeHandler parseDecimal "" (.ok (sampleTrade "Buy")) init).2.stdout
      = [{ previous := F64.zero, desired := F64.ofDecimal false 5 2 }] ∧
    (logTradeHandler parseDecimal "" (.ok (sampleTrade "Hold"))
        (logTradeHandler parseDecimal "" (.ok (sampleTrade "Buy")) init).2).2.stdout
      = (logTradeHandler parseDecimal "" (.ok (sampleTrade "Buy")) init).2.stdout :=
  ⟨by decide, by decide,
    ((C16_adjustment_event_iff_target_differs parseDecimal "" (sampleTrade "Buy") init
      (by decide)).1 (by decide)).1.trans (by decide),
    ((C16_adjustment_event_iff_target_differs parseDecimal "" (sampleTrade "Buy") init
      (by decide)).2.2.2 "" (sampleTrade "Hold") (by decide) rfl (by decide) (by decide)
      (by decide)).1⟩

/-! ## Order of the updates of the hedging state -/

theorem scaled_eq_iff (m n : Nat) (e f : Int) :
    m * 2 ^ (e - min e f).toNat = n * 2 ^ (f - min e f).toNat ↔
      (m : ℚ) * (2 : ℚ) ^ e = (n : ℚ) * (2 : ℚ) ^ f := by
  have he : 0 ≤ e - min e f := by have := min_le_left e f; omega
  have hf : 0 ≤ f - min e f := by have := min_le_right e f; omega
  have h2 : (2 : ℚ) ≠ 0 := by norm_num
  have hk : (2 : ℚ) ^ (min e f) ≠ 0 := zpow_ne_zero _ h2
  have e1 : (2 : ℚ) ^ e = ((2 ^ (e - min e f).toNat : ℕ) : ℚ) * (2 : ℚ) ^ (min e f) := by
    rw [Nat.cast_pow, Nat.cast_ofNat, ← zpow_natCast, Int.toNat_of_nonneg he, ← zpow_add₀ h2]
    congr 1; ring
  have f1 : (2 : ℚ) ^ f = ((2 ^ (f - min e f).toNat : ℕ) : ℚ) * (2 : ℚ) ^ (min e f) := by
    rw [Nat.cast_pow, Nat.cast_ofNat, ← zpow_natCast, Int.toNat_of_nonneg hf, ← zpow_add₀ h2]
    congr 1; ring
  rw [e1, f1, ← mul_assoc, ← mul_assoc]
  constructor
  · intro h
    have : ((m * 2 ^ (e - min e f).toNat : ℕ) : ℚ) = ((n * 2 ^ (f - min e f).toNat : ℕ) : ℚ) := by
      rw [h]
    rw [Nat.cast_mul, Nat.cast_mul] at this
    rw [this]
  · intro h
    have h' := mul_right_cancel₀ hk h
    rw [← Nat.cast_mul, ← Nat.cast_mul] at h'
    exact_mod_cast h'

theorem eq_fin_iff (s t : Bool) (m n : Nat) (e f : Int) :
    F64.eq (F64.fin s m e) (F64.fin t n f) = true ↔
      (m = 0 ∧ n = 0) ∨ (s = t ∧ (m : ℚ) * (2 : ℚ) ^ e = (n : ℚ) * (2 : ℚ) ^ f) := by
  unfold F64.eq
  simp only [Bool.or_eq_true, Bool.and_eq_true, beq_iff_eq]
  rw [scaled_eq_iff]

theorem eq_trans_right (a b d : F64) (h1 : F64.eq a d = true) (h2 : F64.eq b d = true) :
    F64.eq a b = true := by
  cases a with
  | nan => simp [F64.eq] at h1
  | inf s =>
    cases d with
    | nan => simp [F64.eq] at h1
    | fin u p g => simp [F64.eq] at h1
    | inf u =>
      cases b with
      | nan => simp [F64.eq] at h2
      | fin t n f => simp [F64.eq] at h2
      | inf t =>
        simp only [F64.eq, beq_iff_eq] at h1 h2 ⊢
        rw [h1, h2]
  | fin s m e =>
    cases d with
    | nan => simp [F64.eq] at h1
    | inf u => simp [F64.eq] at h1
    | fin u p g =>
      cases b with
      | nan => simp [F64.eq] at h2
      | inf t => simp [F64.eq] at h2
      | fin t n f =>
        rw [eq_fin_iff] at h1 h2 ⊢
        have h2q : (2 : ℚ) ≠ 0 := by norm_num
        rcases h1 with ⟨hm, hp⟩ | ⟨hs, hv⟩
        · rcases h2 with ⟨hn, _⟩ | ⟨_, hw⟩
          · exact Or.inl ⟨hm, hn⟩
          · left
            refine ⟨hm, ?_⟩
            rw [hp, Nat.cast_zero, zero_mul] at hw
            rcases mul_eq_zero.mp hw with h0 | h0
            · exact_mod_cast h0
            · exact absurd h0 (zpow_ne_zero _ h2q)
        · rcases h2 with ⟨hn, hp⟩ | ⟨ht, hw⟩
          · left
            refine ⟨?_, hn⟩
            rw [hp, Nat.cast_zero, zero_mul] at hv
            rcases mul_eq_zero.mp hv with h0 | h0
            · exact_mod_cast h0
            · exact absurd h0 (zpow_ne_zero _ h2q)
          · exact Or.inr ⟨hs.trans ht.symm, hv.trans hw.symm⟩

theorem same_trans_right (a b d : F64) (h1 : F64.same a d = true) (h2 : F64.same b d = true) :
    F64.same a b = true := by
  cases hd : F64.isNaN d with
  | true =>
    cases d with
    | nan =>
      simp only [F64.same, eq_nan_right, Bool.or_false, Bool.and_eq_true] at h1 h2
      simp [F64.same, h1.1, h2.1]
    | inf u => simp [F64.isNaN] at hd
    | fin u p g => simp [F64.isNaN] at hd
  | false =>
    have e1 := eq_of_same_not_nan a d h1 hd
    have e2 := eq_of_same_not_nan b d h2 hd
    simp [F64.same, eq_trans_right a b d e1 e2]

theorem updateHedge_same (m : F64) (t : Trade) (s : State) :
    F64.same (updateHedge m t s).hedgeLot
      (F64.mul (F64.ofInt (updateHedge m t s).netNT) m) = true := by
  obtain ⟨_, c1, c2⟩ := updateHedge_cases m t s
  cases hne : F64.ne s.hedgeLot (F64.mul (F64.ofInt (updateHedge m t s).netNT) m) with
  | true => rw [(c1 hne).1]; exact same_self_of_nan_or_eq _
  | false => rw [(c2 hne).1]; exact same_of_ne_false _ _ hne

theorem updateHedge_netNT_congr (m : F64) (t : Trade) (s s' : State)
    (h : s.netNT = s'.netNT) : (updateHedge m t s).netNT = (updateHedge m t s').netNT := by
  rw [(updateHedge_cases m t s).1, (updateHedge_cases m t s').1, h]

theorem updateHedgeAll_cons (m : F64) (t : Trade) (ts : List Trade) (s : State) :
    updateHedgeAll m (t :: ts) s = updateHedgeAll m ts (updateHedge m t s) := rfl

theorem updateHedgeAll_netNT_congr (m : F64) (ts : List Trade) :
    ∀ s s' : State, s.netNT = s'.netNT →
      (updateHedgeAll m ts s).netNT = (updateHedgeAll m ts s').netNT := by
  induction ts with
  | nil => intro s s' h; exact h
  | cons t ts ih =>
    intro s s' h
    rw [updateHedgeAll_cons, updateHedgeAll_cons]
    exact ih _ _ (updateHedge_netNT_congr m t s s' h)

theorem wrapInt_succ_pred (k : Int) :
    wrapInt (wrapInt (k + 1) - 1) = wrapInt (wrapInt (k - 1) + 1) := by
  rw [sub_eq_add_neg, wrapInt_wrapInt_add, wrapInt_wrapInt_add]
  congr 1
  ring

theorem updateHedge_netNT_comm (m : F64) (x y : Trade) (s : State) :
    (updateHedge m y (updateHedge m x s)).netNT = (updateHedge m x (updateHedge m y s)).netNT := by
  have hx := fun s0 : State => (updateHedge_cases m x s0).1
  have hy := fun s0 : State => (updateHedge_cases m y s0).1
  rw [hy (updateHedge m x s), hx s, hx (updateHedge m y s), hy s]
  by_cases hxb : x.Action = "Buy"
  · by_cases hyb : y.Action = "Buy"
    · simp only [hxb, hyb, if_true]
    · by_cases hys : y.Action = "Sell"
      · have hsb : ¬ ("Sell" : String) = "Buy" := by decide
        simp only [hxb, hys, hsb, if_true, if_false]
        exact wrapInt_succ_pred s.netNT
      · simp only [hxb, hyb, hys, if_true, if_false]
  · by_cases hxs : x.Action = "Sell"
    · by_cases hyb : y.Action = "Buy"
      · have hsb : ¬ ("Sell" : String) = "Buy" := by decide
        simp only [hxs, hyb, hsb, if_true, if_false]
        exact (wrapInt_succ_pred s.netNT).symm
      · by_cases hys : y.Action = "Sell"
        · simp only [hxb, hxs, hyb, hys, if_true, if_false]
        · simp only [hxb, hxs, hyb, hys, if_true, if_false]
    · by_cases hyb : y.Action = "Buy"
      · simp only [hxb, hxs, hyb, if_true, if_false]
      · by_cases hys : y.Action = "Sell"
        · simp only [hxb, hxs, hyb, hys, if_true, if_false]
        · simp only [hxb, hxs, hyb, hys, if_true, if_false]

theorem updateHedgeAll_netNT_perm (m : F64) (xs ys : List Trade) (hp : xs.Perm ys) :
    ∀ s s' : State, s.netNT = s'.netNT →
      (updateHedgeAll m xs s).netNT = (updateHedgeAll m ys s').netNT := by
  induction hp with
  | nil => intro s s' h; exact h
  | cons x _ ih =>
    intro s s' h
    rw [updateHedgeAll_cons, updateHedgeAll_cons]
    exact ih _ _ (updateHedge_netNT_congr m x s s' h)
  | swap x y l =>
    intro s s' h
    rw [updateHedgeAll_cons, updateHedgeAll_cons, updateHedgeAll_cons, updateHedgeAll_cons]
    apply updateHedgeAll_netNT_congr
    rw [updateHedge_netNT_comm m y x s]
    exact updateHedge_netNT_congr m y _ _ (updateHedge_netNT_congr m x s s' h)
  | trans _ _ ih1 ih2 =>
    intro s s' h
    exact (ih1 s s' h).trans (ih2 s' s' rfl)

theorem updateHedgeAll_same (m : F64) (ts : List Trade) :
    ∀ (t : Trade) (s : State),
      F64.same (updateHedgeAll m (t :: ts) s).hedgeLot
        (F64.mul (F64.ofInt (updateHedgeAll m (t :: ts) s).netNT) m) = true := by
  induction ts with
  | nil => intro t s; exact updateHedge_same m t s
  | cons t' ts ih =>
    intro t s
    rw [updateHedgeAll_cons]
    exact ih t' _

theorem updateHedge_queue (m : F64) (t : Trade) (s : State) (q : List Trade) :
    updateHedge m t { s with tradeQueue := q } = { updateHedge m t s with tradeQueue := q } := by
  unfold updateHedge
  dsimp only
  split_ifs <;> rfl

theorem updateHedgeAll_queue (m : F64) (ts : List Trade) :
    ∀ (s : State) (q : List Trade),
      updateHedgeAll m ts { s with tradeQueue := q }
        = { updateHedgeAll m ts s with tradeQueue := q } := by
  induction ts with
  | nil => intro s q; rfl
  | cons t ts ih =>
    intro s q
    rw [updateHedgeAll_cons, updateHedgeAll_cons, updateHedge_queue, ih]

theorem run_ingests_eq_updateHedgeAll (parseFloat : String → Option F64) (mStr : String)
    (ts : List Trade) :
    ∀ s : State, s.tradeQueue.length + ts.length ≤ 100 →
      (run parseFloat (ts.map (fun t => ingest (mStr, t))) s).2 =
        { updateHedgeAll (getCurrentLotMultiplier parseFloat mStr) ts s with
          tradeQueue := s.tradeQueue ++ ts } := by
  induction ts with
  | nil => intro s _; simp [run, updateHedgeAll]
  | cons t ts ih =>
    intro s hs
    simp only [List.length_cons] at hs
    have hlt : s.tradeQueue.length < 100 := by omega
    simp only [List.map_cons, run, ingest, handle]
    rw [logTradeHandler_eq_updateHedge parseFloat mStr t s hlt]
    have := ih { updateHedge (getCurrentLotMultiplier parseFloat mStr) t s with
      tradeQueue := s.tradeQueue ++ [t] } (by simp only [List.length_append, List.length_singleton]; omega)
    simp only [ingest] at this
    rw [this, updateHedgeAll_queue, updateHedgeAll_cons]
    simp

/-- C15: for a fixed lot multiplier and any starting state, running the update of the
hedging state for the trades of a list or for those of a permutation of it ends with
the same net position and with the same target hedge size (equal under `==`, or both
not-a-number).  The same holds for the accepted ingests themselves when the value of
the variable is fixed and the queue has room for all the trades. -/
theorem C15_hedge_state_independent_of_order (m : F64) (s : State) (xs ys : List Trade)
    (hp : xs.Perm ys) :
    (updateHedgeAll m xs s).netNT = (updateHedgeAll m ys s).netNT ∧
    F64.same (updateHedgeAll m xs s).hedgeLot (updateHedgeAll m ys s).hedgeLot = true ∧
    (F64.isNaN (updateHedgeAll m ys s).hedgeLot = false →
      F64.eq (updateHedgeAll m xs s).hedgeLot (updateHedgeAll m ys s).hedgeLot = true) ∧
    (∀ (parseFloat : String → Option F64) (mStr : String),
      getCurrentLotMultiplier parseFloat mStr = m →
      s.tradeQueue.length + xs.length ≤ 100 →
      (run parseFloat (xs.map (fun t => ingest (mStr, t))) s).2.netNT
        = (run parseFloat (ys.map (fun t => ingest (mStr, t))) s).2.netNT ∧
      F64.same (run parseFloat (xs.map (fun t => ingest (mStr, t))) s).2.hedgeLot
        (run parseFloat (ys.map (fun t => ingest (mStr, t))) s).2.hedgeLot = true) := by
  have hn := updateHedgeAll_netNT_perm m xs ys hp s s rfl
  have hsame : F64.same (updateHedgeAll m xs s).hedgeLot
      (updateHedgeAll m ys s).hedgeLot = true := by
    cases xs with
    | nil =>
      have : ys = [] := List.Perm.eq_nil (List.Perm.symm hp)
      rw [this]
      exact same_self_of_nan_or_eq _
    | cons x xs' =>
      cases ys with
      | nil => exact absurd (List.Perm.eq_nil hp) (by simp)
      | cons y ys' =>
        have h1 := updateHedgeAll_same m xs' x s
        have h2 := updateHedgeAll_same m ys' y s
        rw [hn] at h1
        exact same_trans_right _ _ _ h1 h2
  refine ⟨hn, hsame, fun hnan => eq_of_same_not_nan _ _ hsame hnan, ?_⟩
  intro parseFloat mStr hm hroom
  have hroom' : s.tradeQueue.length + ys.length ≤ 100 := by
    rw [← List.Perm.length_eq hp]; exact hroom
  rw [run_ingests_eq_updateHedgeAll parseFloat mStr xs s hroom,
    run_ingests_eq_updateHedgeAll parseFloat mStr ys s hroom', hm]
  exact ⟨hn, hsame⟩

set_option maxRecDepth 100000 in
set_option exponentiation.threshold 4000 in
/-- Witness of C15: the trades Buy, Sell and Sell, Buy from the initial state with
multiplier 0.05. -/
theorem C15_hedge_state_independent_of_order_witness :
    [sampleTrade "Buy", sampleTrade "Sell"].Perm [sampleTrade "Sell", sampleTrade "Buy"] ∧
    (updateHedgeAll (F64.ofDecimal false 5 2) [sampleTrade "Buy", sampleTrade "Sell"] init).netNT
      = (updateHedgeAll (F64.ofDecimal false 5 2)
          [sampleTrade "Sell", sampleTrade "Buy"] init).netNT ∧
    (updateHedgeAll (F64.ofDecimal false 5 2)
      [sampleTrade "Sell", sampleTrade "Buy"] init).netNT = 0 :=
  ⟨List.Perm.swap _ _ _,
    (C15_hedge_state_independent_of_order (F64.ofDecimal false 5 2) init
      [sampleTrade "Buy", sampleTrade "Sell"] [sampleTrade "Sell", sampleTrade "Buy"]
      (List.Perm.swap _ _ _)).1,
    by decide⟩

end Bridge
